import Mathlib

/-!
Verification development for the MWA calibration-solution QA core
(`mwa_qa/read_calfits.py` and `mwa_qa/cal_metrics.py`).

Numeric model: python/numpy floating-point values are embedded as exact
elements of a linearly ordered field `α` (instantiated at `ℚ` or `ℝ`),
extended with IEEE-754 special values `nan`, `+inf`, `-inf` (type `F α`).
Complex gain entries are embedded as `Option K` over a field `K`
(instantiated at `ℂ`): `none` models a NaN entry (numpy's `np.isnan` on a
complex value is true when either component is NaN, and NaN propagates
through complex arithmetic), `some z` a finite value.
-/

/-- IEEE-754-style extension of an ordered field with `nan` and `±inf`,
modelling numpy floating-point scalars. -/
inductive F (α : Type) where
  | nan : F α
  | pinf : F α
  | ninf : F α
  | fin : α → F α
deriving DecidableEq

namespace F

variable {α : Type} [LinearOrderedField α]

/-- IEEE addition: `nan` propagates, `+inf + -inf = nan`. -/
def fadd : F α → F α → F α
  | nan, _ => nan
  | _, nan => nan
  | pinf, ninf => nan
  | ninf, pinf => nan
  | pinf, _ => pinf
  | _, pinf => pinf
  | ninf, _ => ninf
  | _, ninf => ninf
  | fin a, fin b => fin (a + b)

/-- IEEE negation. -/
def fneg : F α → F α
  | nan => nan
  | pinf => ninf
  | ninf => pinf
  | fin a => fin (-a)

/-- IEEE subtraction. -/
def fsub (x y : F α) : F α := fadd x (fneg y)

/-- IEEE multiplication: `nan` propagates, `inf * 0 = nan`. -/
def fmul : F α → F α → F α
  | nan, _ => nan
  | _, nan => nan
  | pinf, pinf => pinf
  | pinf, ninf => ninf
  | ninf, pinf => ninf
  | ninf, ninf => pinf
  | pinf, fin b => if b = 0 then nan else if 0 < b then pinf else ninf
  | fin a, pinf => if a = 0 then nan else if 0 < a then pinf else ninf
  | ninf, fin b => if b = 0 then nan else if 0 < b then ninf else pinf
  | fin a, ninf => if a = 0 then nan else if 0 < a then ninf else pinf
  | fin a, fin b => fin (a * b)

/-- IEEE division (python/numpy zeros are `+0`): `x / 0` is `+inf`, `-inf`
or `nan` according to the sign of `x`; `inf / inf = nan`; `x / inf = 0`. -/
def fdiv : F α → F α → F α
  | nan, _ => nan
  | _, nan => nan
  | pinf, pinf => nan
  | pinf, ninf => nan
  | ninf, pinf => nan
  | ninf, ninf => nan
  | pinf, fin b => if 0 ≤ b then pinf else ninf
  | ninf, fin b => if 0 ≤ b then ninf else pinf
  | fin _, pinf => fin 0
  | fin _, ninf => fin 0
  | fin a, fin b =>
      if b = 0 then (if a = 0 then nan else if 0 < a then pinf else ninf)
      else fin (a / b)

/-- IEEE absolute value. -/
def fabs : F α → F α
  | nan => nan
  | pinf => pinf
  | ninf => pinf
  | fin a => fin |a|

/-- IEEE strict comparison as a boolean: any comparison with `nan` is false. -/
def fltB : F α → F α → Bool
  | nan, _ => false
  | _, nan => false
  | pinf, _ => false
  | _, pinf => true
  | ninf, ninf => false
  | ninf, _ => true
  | _, ninf => false
  | fin a, fin b => decide (a < b)

/-- IEEE non-strict comparison as a boolean: false on `nan`. -/
def fleB : F α → F α → Bool
  | nan, _ => false
  | _, nan => false
  | _, pinf => true
  | pinf, _ => false
  | ninf, _ => true
  | _, ninf => false
  | fin a, fin b => decide (a ≤ b)

/-- Is this value NaN (numpy `np.isnan`)? -/
def isnan : F α → Bool
  | nan => true
  | _ => false

end F

namespace MwaQa

variable {α : Type} [LinearOrderedField α]

open F

/-- The non-NaN entries of a list, in order (what numpy's nan-aware
reductions operate on). -/
def nonnans (xs : List (F α)) : List (F α) := xs.filter (fun x => ¬ x.isnan)

/-- Sum of a list of IEEE values (numpy reduction order is left to right). -/
def fsum (xs : List (F α)) : F α := xs.foldl fadd (F.fin 0)

/-- `np.nanmean`: mean of the non-NaN entries; NaN when all entries are
NaN (numpy emits a warning and returns NaN). -/
def nanmean (xs : List (F α)) : F α :=
  let v := nonnans xs
  if v = [] then F.nan else fdiv (fsum v) (F.fin (v.length : α))

/-- Insert into a list sorted by the IEEE non-strict order. -/
def finsert (x : F α) : List (F α) → List (F α)
  | [] => [x]
  | y :: ys => if fleB x y then x :: y :: ys else y :: finsert x ys

/-- Insertion sort by the IEEE non-strict order (applied only to lists
without NaN, where `fleB` is a total order). -/
def fsort : List (F α) → List (F α)
  | [] => []
  | x :: xs => finsert x (fsort xs)

/-- `np.nanmedian`: median of the non-NaN entries; mean of the two middle
entries for an even count; NaN when all entries are NaN. -/
def nanmedian (xs : List (F α)) : F α :=
  let s := fsort (nonnans xs)
  let n := s.length
  if n = 0 then F.nan
  else if n % 2 = 1 then s.getD (n / 2) F.nan
  else fdiv (fadd (s.getD (n / 2 - 1) F.nan) (s.getD (n / 2) F.nan)) (F.fin 2)

/-- `np.nanvar`: mean of squared deviations from the nan-mean, over the
non-NaN entries; NaN when all entries are NaN. -/
def nanvar (xs : List (F α)) : F α :=
  let v := nonnans xs
  if v = [] then F.nan
  else
    let m := nanmean xs
    fdiv (fsum (v.map (fun x => fmul (fsub x m) (fsub x m))))
      (F.fin (v.length : α))

/-- `np.nanmax`: maximum of the non-NaN entries; NaN when all entries are
NaN (numpy emits a warning and returns NaN). -/
def nanmax (xs : List (F α)) : F α :=
  match nonnans xs with
  | [] => F.nan
  | y :: ys => ys.foldl (fun acc x => if fltB acc x then x else acc) y

/-- Python-level failure modes surfaced by the embedded code. The source
has no exception classes of its own: `indexError` is CPython's
`IndexError` (the spec's `NoUsableReferenceAntennaError` failure mode),
`attributeError` a lookup of an attribute never assigned,
`assertionError` a failed `assert` (the spec's `ConfigurationError`),
`singularMatrix` numpy's `LinAlgError` from `np.linalg.inv` (the spec's
`SingularMatrixError`). -/
inductive PyErr where
  | indexError : PyErr
  | attributeError : PyErr
  | assertionError : PyErr
  | singularMatrix : PyErr
  | shapeError : PyErr
deriving DecidableEq

/-- Backward scan kernel of `_iterate_refant`: the argument list is the
antenna table zipped with its flags, already reversed, so head-first
traversal is the python loop's `anindex = -1, -2, ...` walk; exhausting
the list is the python lookup `antenna_flags[anindex]` raising
`IndexError` once `anindex` passes `-len`. -/
def scanBack : List (ℤ × ℤ) → Except PyErr ℤ
  | [] => Except.error PyErr.indexError
  | (a, f) :: rest => if f = 0 then Except.ok a else scanBack rest

/-- `CalFits._iterate_refant` (read_calfits.py lines 108-114): starting
at python index `-1` and decrementing while the flag there is nonzero,
i.e. scanning the antenna table from the last index backward; returns
`antenna[anindex]` for the first unflagged index found. -/
def iterateRefant (antenna antenna_flags : List ℤ) : Except PyErr ℤ :=
  scanBack ((antenna.zip antenna_flags).reverse)

/-- `CalFits.gains_ind_for` (read_calfits.py lines 116-122): the gain
index for an antenna number is the antenna number itself. -/
def gainsIndFor (antnum : ℤ) : ℤ := antnum

/-- The attribute table a constructed `CalFits` object exposes to
`_check_refant`: the constructor assigns `antenna` and `antenna_flags`
(read_calfits.py lines 64-72); no attribute named `antenna_flag` is ever
assigned anywhere in the source. -/
def tileAttrs (antenna antenna_flags : List ℤ) : String → Option (List ℤ) :=
  fun s =>
    if s = "antenna" then some antenna
    else if s = "antenna_flags" then some antenna_flags
    else none

/-- `CalFits._check_refant` (read_calfits.py lines 98-106): reads
`self.antenna_flag` (an `AttributeError` when absent), indexes it at
`gains_ind_for(ref_antenna)` and asserts the flag there is zero. -/
def checkRefant (attrs : String → Option (List ℤ)) (ref_antenna : ℤ)
    : Except PyErr Unit :=
  match attrs "antenna_flag" with
  | none => Except.error PyErr.attributeError
  | some flags =>
      match flags.get? (gainsIndFor ref_antenna).toNat with
      | none => Except.error PyErr.indexError
      | some flag =>
          if flag = 0 then Except.ok () else Except.error PyErr.assertionError

/-- The python check `_check_refant` was evidently meant to perform
(read_calfits.py line 105 with the attribute name as assigned at line
71): assert the explicit reference antenna's flag bit is zero. -/
def checkRefantIntended (antenna_flags : List ℤ) (ref_antenna : ℤ)
    : Except PyErr Unit :=
  match antenna_flags.get? (gainsIndFor ref_antenna).toNat with
  | none => Except.error PyErr.indexError
  | some flag =>
      if flag = 0 then Except.ok () else Except.error PyErr.assertionError

section Jones

variable {K : Type} [Field K] [DecidableEq K]

/-- numpy addition on complex entries: NaN (`none`) propagates. -/
def oadd : Option K → Option K → Option K
  | some a, some b => some (a + b)
  | _, _ => none

/-- numpy multiplication on complex entries: NaN (`none`) propagates
(IEEE: any product with a NaN operand, including `0 * NaN`, is NaN). -/
def omul : Option K → Option K → Option K
  | some a, some b => some (a * b)
  | _, _ => none

/-- `np.linalg.inv` of one per-channel Jones matrix, stored row-major as
the polarization 4-vector `[xx, xy, yx, yy]` (the source's
`reshape((-1, 2, 2))`). A matrix with a NaN entry inverts to an all-NaN
matrix without raising (LAPACK propagates NaN with a zero info flag); a
finite matrix with zero determinant raises `LinAlgError` — there is no
try/except around the inversion loop in `_normalized_data`
(read_calfits.py lines 130-134). -/
def invJ (row : List (Option K)) : Except PyErr (List (Option K)) :=
  match row with
  | [some a, some b, some c, some d] =>
      if a * d - b * c = 0 then Except.error PyErr.singularMatrix
      else
        Except.ok [some (d / (a * d - b * c)), some (-b / (a * d - b * c)),
          some (-c / (a * d - b * c)), some (a / (a * d - b * c))]
  | [_, _, _, _] => Except.ok [none, none, none, none]
  | _ => Except.error PyErr.shapeError

/-- `i.reshape((2, 2)).dot(ref)` (read_calfits.py line 138): right
multiplication of one antenna's per-channel Jones matrix by the inverted
reference matrix, both row-major 4-vectors. -/
def mulJ (row ref : List (Option K)) : List (Option K) :=
  match row, ref with
  | [a, b, c, d], [e, f, g, h] =>
      [oadd (omul a e) (omul b g), oadd (omul a f) (omul b h),
        oadd (omul c e) (omul d g), oadd (omul c f) (omul d h)]
  | _, _ => [none, none, none, none]

/-- One timeblock of the gain array: `[antenna][channel][polarization]`
entries, each a complex value or NaN. -/
abbrev TB (K : Type) := List (List (List (Option K)))

/-- `CalFits._normalized_data` (read_calfits.py lines 124-139): invert
the reference antenna's Jones matrix on every channel (the first
`LinAlgError` aborts the whole call), then right-multiply every
antenna's per-channel matrix by the inverted reference of that channel
and reassemble in the original shape. `zipWith` models the source's
`zip(tile_i, refs)`; the final reshape is shape-preserving on
rectangular data. -/
def normalizedData (refInd : ℕ) (data : TB K) : Except PyErr (TB K) := do
  let refs ← (data.getD refInd []).mapM invJ
  Except.ok (data.map (fun tile => List.zipWith mulJ tile refs))

/-- The loop of `CalFits.normalized_gains` (read_calfits.py lines
146-149): `acc` is the deep copy `ngains`, updated at index `t` with
`_normalized_data(self.gain_array[t])` — each timeblock is computed from
the original array `orig`, never from the partially updated copy. -/
def normalizedGainsGo (refInd : ℕ) (orig : List (TB K)) (acc : List (TB K))
    : List ℕ → Except PyErr (List (TB K))
  | [] => Except.ok acc
  | t :: ts =>
      match normalizedData refInd (orig.getD t []) with
      | Except.error e => Except.error e
      | Except.ok d => normalizedGainsGo refInd orig (acc.set t d) ts

/-- `CalFits.normalized_gains` (read_calfits.py lines 141-149):
deep-copy the gain array, then overwrite every timeblock of the copy
with its normalized data and return the copy. -/
def normalizedGains (refInd : ℕ) (gain_array : List (TB K))
    : Except PyErr (List (TB K)) :=
  normalizedGainsGo refInd gain_array gain_array (List.range gain_array.length)

/-- `CalFits.gains_for_antnum` (read_calfits.py lines 151-160):
`gain_array[:, gains_ind_for(antnum), :, :]`, the `[time][channel][pol]`
slice at the antenna's own index. -/
def gainsForAntnum (g : List (TB K)) (antnum : ℕ)
    : List (List (List (Option K))) :=
  g.map (fun tb => tb.getD antnum [])

/-- Elementwise complex conjugation (`np.conj`) of a
`[time][channel][pol]` slice; conjugation of NaN is NaN. -/
def conjArr [StarRing K] (x : List (List (List (Option K))))
    : List (List (List (Option K))) :=
  x.map (fun t => t.map (fun r => r.map (Option.map (fun z => star z))))

/-- Elementwise product of two `[time][channel][pol]` slices. -/
def mulArr (x y : List (List (List (Option K))))
    : List (List (List (Option K))) :=
  List.zipWith (fun a b =>
    List.zipWith (fun r s => List.zipWith omul r s) a b) x y

/-- `CalFits.gains_for_antpair` (read_calfits.py lines 162-170):
`gains_for_antnum(antpair[0]) * np.conj(gains_for_antnum(antpair[1]))`. -/
def gainsForAntpair [StarRing K] (g : List (TB K)) (antpair : ℕ × ℕ)
    : List (List (List (Option K))) :=
  mulArr (gainsForAntnum g antpair.1) (conjArr (gainsForAntnum g antpair.2))

end Jones

/-- `np.sqrt` on an IEEE value: NaN for negative (and NaN) arguments. -/
noncomputable def sqrtF : F ℝ → F ℝ
  | F.nan => F.nan
  | F.pinf => F.pinf
  | F.ninf => F.nan
  | F.fin v => if v < 0 then F.nan else F.fin (Real.sqrt v)

/-- `np.nanstd`: square root of the nan-variance. -/
noncomputable def nanstd (xs : List (F ℝ)) : F ℝ := sqrtF (nanvar xs)

/-- `np.nanvar` across one axis of a complex array: variance (mean of
`|x - nanmean|²`) of the non-NaN entries; NaN when all entries are NaN.
The non-NaN gain values are finite, so the result is a finite real. -/
noncomputable def nanvarC (xs : List (Option ℂ)) : F ℝ :=
  let v := xs.filterMap id
  if v = [] then F.nan
  else
    let m := v.sum / (v.length : ℂ)
    F.fin ((v.map (fun z => Complex.normSq (z - m))).sum / (v.length : ℝ))

/-- `CalMetrics.variance_for_antpair` (cal_metrics.py lines 43-52):
`np.nanvar(gains_for_antpair(antpair), axis=1)`, the variance across
frequency channels, per timeblock and polarization (4 polarizations). -/
noncomputable def varianceForAntpair (g : List (TB ℂ)) (antpair : ℕ × ℕ)
    : List (List (F ℝ)) :=
  (gainsForAntpair g antpair).map (fun tb =>
    (List.range 4).map (fun p => nanvarC (tb.map (fun row => row.getD p none))))

/-- `CalMetrics.variance_for_baselines_less_than` (cal_metrics.py lines
54-66) with the Metadata Provider's `baselines_less_than(uv_cut)` —
external to this core — supplied as the already-restricted list of
antenna pairs: `variances[t][i][p] = variance_for_antpair(bl_i)[t][p]`. -/
noncomputable def variancesForBaselines (g : List (TB ℂ))
    (baselines : List (ℕ × ℕ)) : List (List (List (F ℝ))) :=
  let vfa := baselines.map (varianceForAntpair g)
  (List.range g.length).map (fun t => vfa.map (fun v => v.getD t []))

/-- The statistical core of `CalMetrics.skewness_across_uvcut`
(cal_metrics.py lines 78-83): `np.nanmean`, `np.nanmedian` and
`np.nanstd` of the variances are all taken along `axis=1` — across
antenna pairs — giving per-timeblock, per-polarization values; the
Pearson coefficient `3 * (vmean - vmedian) / vstd` is then maximized
over timeblocks (`np.nanmax(skewness, axis=0)`). -/
noncomputable def skewnessFromVariances
    (variances : List (List (List (F ℝ)))) : List (F ℝ) :=
  let skew := variances.map (fun tslice =>
    (List.range 4).map (fun p =>
      let col := tslice.map (fun pr => pr.getD p F.nan)
      F.fdiv (F.fmul (F.fin 3) (F.fsub (nanmean col) (nanmedian col)))
        (nanstd col)))
  (List.range 4).map (fun p => nanmax (skew.map (fun row => row.getD p F.nan)))

/-- `CalMetrics.skewness_across_uvcut` (cal_metrics.py lines 68-83). -/
noncomputable def skewnessAcrossUvcut (g : List (TB ℂ))
    (baselines : List (ℕ × ℕ)) : List (F ℝ) :=
  skewnessFromVariances (variancesForBaselines g baselines)

/-- The global `SKEWNESS` entry of `run_metrics` (cal_metrics.py lines
199 and 210-211): `np.nanmax` over the XX (index 0) and YY (index 3)
polarization entries of `skewness_across_uvcut`. -/
noncomputable def runMetricsSkewness (g : List (TB ℂ))
    (baselines : List (ℕ × ℕ)) : F ℝ :=
  let sk := skewnessAcrossUvcut g baselines
  nanmax [sk.getD 0 F.nan, sk.getD 3 F.nan]

/-- Modelled from the spec (claim C5 wording): average the per-pair
variances across pairs, compute Pearson's second skewness coefficient
`3 * (mean - median) / std` across timeblocks, and report the maximum
over the XX and YY polarizations. Stated for comparison with the
source's `skewnessAcrossUvcut`/`runMetricsSkewness`. -/
noncomputable def skewnessClaimC5 (g : List (TB ℂ))
    (baselines : List (ℕ × ℕ)) : F ℝ :=
  let variances := variancesForBaselines g baselines
  let series := fun (p : ℕ) =>
    variances.map (fun tslice => nanmean (tslice.map (fun pr => pr.getD p F.nan)))
  let sk := fun (p : ℕ) =>
    F.fdiv (F.fmul (F.fin 3) (F.fsub (nanmean (series p)) (nanmedian (series p))))
      (nanstd (series p))
  nanmax [sk 0, sk 3]

/-- The modified z-score of `run_metrics` (cal_metrics.py lines 176-178):
`(x - nanmedian(x)) / nanmedian(|x - nanmedian(x)|)`. -/
def modZ (xs : List (F α)) : List (F α) :=
  let m := nanmedian xs
  let mad := nanmedian (xs.map (fun x => F.fabs (F.fsub x m)))
  xs.map (fun x => F.fdiv (F.fsub x m) mad)

/-- The outlier selection of `run_metrics` (cal_metrics.py lines
180-181): `np.where((modz < -threshold) | (modz > threshold))`, the
indices whose modified z-score strictly exceeds the threshold in
magnitude (false on NaN, in index order). -/
def flaggedIndices (threshold : α) (xs : List (F α)) : List ℕ :=
  (List.range xs.length).filter (fun i =>
    F.fltB ((modZ xs).getD i F.nan) (F.fin (-threshold)) ||
      F.fltB (F.fin threshold) ((modZ xs).getD i F.nan))

/-- Sorted insertion of an integer. -/
def insertInt (x : ℤ) : List ℤ → List ℤ
  | [] => [x]
  | y :: ys => if x ≤ y then x :: y :: ys else y :: insertInt x ys

/-- Insertion sort on integers. -/
def sortInts : List ℤ → List ℤ
  | [] => []
  | x :: xs => insertInt x (sortInts xs)

/-- `np.unique` on a list of antenna numbers: sorted distinct values. -/
def npUnique (xs : List ℤ) : List ℤ := (sortInts xs).dedup

/-- The global `BAD_ANTS` aggregation of `run_metrics` (cal_metrics.py
lines 203-204): `np.unique` of `metrics['XX']['BAD_ANTS'].tolist() +
metrics['XX']['BAD_ANTS'].tolist()` — the source concatenates the XX
polarization's bad-antenna list with itself; the YY list (second
argument here) is not used by the expression. -/
def runMetricsGlobalBadAnts (badXX badYY : List ℤ) : List ℤ :=
  npUnique (badXX ++ badXX)

/-- `np.fft.fft` as the discrete Fourier transform with numpy's sign
convention: entry `k` is `Σ_j v_j · exp(-2πi·j·k/n)`. -/
noncomputable def dft (v : List ℂ) : List ℂ :=
  (List.range v.length).map (fun (k : ℕ) =>
    ((List.range v.length).map (fun (j : ℕ) =>
      v.getD j 0 *
        Complex.exp (-(2 * (Real.pi : ℂ) * Complex.I * (j : ℂ) * (k : ℂ)) /
          (v.length : ℂ)))).sum)

/-- `np.fft.fftshift`: roll by `n - n/2 = ⌈n/2⌉`, moving the second half
of the spectrum in front so zero frequency is centered. -/
def fftshift {β : Type} (v : List β) : List β :=
  v.drop ((v.length + 1) / 2) ++ v.take ((v.length + 1) / 2)

/-- `np.where(~np.isnan(data))[0]` of `CalFits._filter_nans`
(read_calfits.py lines 197-200): indices of the non-NaN channels, in
increasing order. -/
def nonanIndices (slice : List (Option ℂ)) : List ℕ :=
  (List.range slice.length).filter (fun c => (slice.getD c none).isSome)

/-- `np.where(np.isnan(data))[0]`: indices of the NaN channels. -/
def nanIndices (slice : List (Option ℂ)) : List ℕ :=
  (List.range slice.length).filter (fun c => (slice.getD c none).isNone)

/-- Fancy-index assignment `base[idxs] = vals` on a list. -/
def scatter {β : Type} (base : List β) (idxs : List ℕ) (vals : List β)
    : List β :=
  (idxs.zip vals).foldl (fun acc iv => acc.set iv.1 iv.2) base

/-- One `(timeblock, antenna, polarization)` slice of
`CalFits.gains_fft` (read_calfits.py lines 209-217): window the non-NaN
channel values by the window coefficients at their own channel
positions, Fourier-transform that subsequence, `fftshift` it, scatter
the result back into the non-NaN channel positions of a zero array, and
set the NaN channel positions to NaN. An empty non-NaN selection makes
`np.fft.fft` raise `ValueError`, which the except-branch turns into a
wholly NaN slice. -/
noncomputable def fftSlice (window : List ℝ) (slice : List (Option ℂ))
    : List (Option ℂ) :=
  if nonanIndices slice = [] then List.replicate slice.length none
  else
    let nonans := nonanIndices slice
    let vals := slice.filterMap id
    let windowed := List.zipWith (fun z i => z * ((window.getD i 0 : ℝ) : ℂ))
      vals nonans
    let shifted := fftshift (dft windowed)
    scatter
      (scatter (List.replicate slice.length (some 0)) nonans
        (shifted.map some))
      (nanIndices slice) ((nanIndices slice).map (fun _ => none))

/-- `CalFits.gains_fft` (read_calfits.py lines 202-218): apply
`fftSlice` independently to every `(timeblock, antenna, polarization)`
frequency column and reassemble in the original
`[time][antenna][channel][pol]` layout. The window is
`blackmanharris(len(frequency_array))`, supplied here as its coefficient
list. -/
noncomputable def gainsFft (g : List (TB ℂ)) (window : List ℝ)
    : List (TB ℂ) :=
  g.map (fun tb => tb.map (fun ant =>
    (List.range ant.length).map (fun c =>
      (List.range (ant.getD 0 []).length).map (fun p =>
        (fftSlice window (ant.map (fun row => row.getD p none))).getD c none))))

lemma scanBack_all_flagged (l : List (ℤ × ℤ)) (h : ∀ p ∈ l, p.2 ≠ 0) :
    scanBack l = Except.error PyErr.indexError := by
  induction l with
  | nil => rfl
  | cons a t ih =>
      obtain ⟨x, f⟩ := a
      have hf : f ≠ 0 := h (x, f) (by simp)
      simp only [scanBack, if_neg hf]
      exact ih (fun p hp => h p (by simp [hp]))

lemma scanBack_reverse_ok (l : List (ℤ × ℤ)) :
    ∀ (i : ℕ) (hi : i < l.length), (l.get ⟨i, hi⟩).2 = 0 →
      (∀ j (hj : j < l.length), i < j → (l.get ⟨j, hj⟩).2 ≠ 0) →
      scanBack l.reverse = Except.ok (l.get ⟨i, hi⟩).1 := by
  induction l using List.reverseRecOn with
  | nil => intro i hi; simp at hi
  | append_singleton t a ih =>
      intro i hi h0 hafter
      have hrev : (t ++ [a]).reverse = a :: t.reverse := by
        simp [List.reverse_append]
      obtain ⟨x, f⟩ := a
      rw [hrev]
      have hlen : (t ++ [(x, f)]).length = t.length + 1 := by simp
      by_cases hit : i = t.length
      · subst hit
        have hget : (t ++ [(x, f)]).get ⟨t.length, hi⟩ = (x, f) := by
          simp [List.get_eq_getElem]
        rw [hget] at h0 ⊢
        simp only [scanBack, if_pos h0]
      · have hit' : i < t.length := by omega
        have hgetl : (t ++ [(x, f)]).get ⟨i, hi⟩ = t.get ⟨i, hit'⟩ := by
          simp only [List.get_eq_getElem]
          exact List.getElem_append_left hit'
        have hlast : ((t ++ [(x, f)]).get ⟨t.length, by omega⟩).2 ≠ 0 :=
          hafter t.length (by omega) (by omega)
        have hfne : f ≠ 0 := by
          have : (t ++ [(x, f)]).get ⟨t.length, by omega⟩ = (x, f) := by
            simp [List.get_eq_getElem]
          rwa [this] at hlast
        simp only [scanBack, if_neg hfne]
        rw [hgetl] at h0 ⊢
        exact ih i hit' h0 (fun j hj hij => by
          have := hafter j (by omega) hij
          rwa [show (t ++ [(x, f)]).get ⟨j, by omega⟩ = t.get ⟨j, hj⟩ from by
            simp only [List.get_eq_getElem]
            exact List.getElem_append_left hj] at this)

/-- Claim C2: with no reference antenna supplied, `_iterate_refant`
scans the antenna table from the last index backward and returns the
antenna number of the first unflagged antenna encountered; with every
antenna flagged the backward scan terminates by failing (the python
lookup raises `IndexError` once the negative index passes `-len` — the
spec's `NoUsableReferenceAntennaError` failure mode). -/
theorem iterate_refant_backward_scan (antenna flags : List ℤ)
    (hlen : antenna.length = flags.length) :
    (∀ i (hi : i < flags.length), flags.get ⟨i, hi⟩ = 0 →
      (∀ j (hj : j < flags.length), i < j → flags.get ⟨j, hj⟩ ≠ 0) →
      iterateRefant antenna flags =
        Except.ok (antenna.get ⟨i, by omega⟩)) ∧
    ((∀ f ∈ flags, f ≠ 0) →
      iterateRefant antenna flags = Except.error PyErr.indexError) := by
  have hzlen : (antenna.zip flags).length = flags.length := by
    simp [List.length_zip, hlen]
  constructor
  · intro i hi h0 hafter
    have hiz : i < (antenna.zip flags).length := by omega
    have hget : (antenna.zip flags).get ⟨i, hiz⟩ =
        (antenna.get ⟨i, by omega⟩, flags.get ⟨i, hi⟩) := by
      simp [List.get_eq_getElem, List.getElem_zip]
    have := scanBack_reverse_ok (antenna.zip flags) i hiz
      (by rw [hget]; exact h0)
      (fun j hj hij => by
        have hjf : j < flags.length := by omega
        have : (antenna.zip flags).get ⟨j, hj⟩ =
            (antenna.get ⟨j, by omega⟩, flags.get ⟨j, hjf⟩) := by
          simp [List.get_eq_getElem, List.getElem_zip]
        rw [this]
        exact hafter j hjf hij)
    rw [iterateRefant, this, hget]
  · intro hall
    exact scanBack_all_flagged _ (fun p hp => by
      have := List.of_mem_zip (List.mem_reverse.mp hp)
      exact hall p.2 this.2)

/-- Claim C2 witness: with flags `[0, 1, 1]` the backward scan skips the
two flagged trailing antennas and returns antenna number 10 at index 0;
with all antennas flagged it fails. -/
theorem iterate_refant_backward_scan_witness :
    iterateRefant [10, 11, 12] [0, 1, 1] = Except.ok 10 ∧
    iterateRefant [10, 11, 12] [1, 1, 1] = Except.error PyErr.indexError := by
  constructor
  · exact (iterate_refant_backward_scan [10, 11, 12] [0, 1, 1] (by decide)).1
      0 (by decide) (by decide) (by decide)
  · exact (iterate_refant_backward_scan [10, 11, 12] [1, 1, 1] (by decide)).2
      (by decide)

/-- Claim C7: with threshold 3, the modified z-score applied to the
per-antenna RMS series `[1, 1, 1, 1, 50]` flags exactly index 4 (its
median absolute deviation is 0, so the outlier's score is `49/0 = +inf`,
beyond every threshold, while the others are `0/0 = NaN`); applied to
`[1, 1, 1, 1, 1]` every score is `0/0 = NaN` and no antenna is flagged. -/
theorem modz_outlier_detection :
    flaggedIndices (3 : ℚ) [F.fin 1, F.fin 1, F.fin 1, F.fin 1, F.fin 50] =
      [4] ∧
    flaggedIndices (3 : ℚ) [F.fin 1, F.fin 1, F.fin 1, F.fin 1, F.fin 1] =
      [] := by
  norm_num [flaggedIndices, modZ, nanmedian, nonnans, fsort, finsert, fleB,
    F.fabs, F.fsub, F.fadd, F.fneg, F.fdiv, F.fltB, F.isnan, List.filter]

/-- Claim C1: the report's global bad-antenna set is NOT the union of
the XX and YY bad-antenna sets — run_metrics concatenates the XX list
with itself (cal_metrics.py lines 203-204), so a bad antenna found only
in YY is dropped: with XX bad set `[1]` and YY bad set `[2]` the code
produces `[1]`, while the union `np.unique([1] + [2])` is `[1, 2]`. -/
theorem global_bad_ants_xx_twice :
    runMetricsGlobalBadAnts [1] [2] = [1] ∧
    npUnique ([1] ++ [2]) = [1, 2] ∧
    runMetricsGlobalBadAnts [1] [2] ≠ npUnique ([1] ++ [2]) := by
  decide

/-- Claim C9: `_check_refant` never reaches the flag assertion (the
spec's `ConfigurationError`): it reads `self.antenna_flag`, an attribute
the constructor never assigns (it assigns `antenna_flags`), so every
explicit reference antenna — flagged or not — fails construction with
`AttributeError`; the intended check on the assigned attribute would
have rejected the flagged antenna with the assertion. -/
theorem check_refant_attribute_error :
    (∀ (antenna flags : List ℤ) (r : ℤ),
      checkRefant (tileAttrs antenna flags) r =
        Except.error PyErr.attributeError) ∧
    checkRefantIntended [0, 1] 1 = Except.error PyErr.assertionError := by
  exact ⟨fun antenna flags r => rfl, rfl⟩

lemma take_succ_set {γ : Type} (l : List γ) (k : ℕ) (a : γ)
    (h : k < l.length) : (l.set k a).take (k + 1) = l.take k ++ [a] := by
  induction l generalizing k with
  | nil => simp at h
  | cons x t ih =>
      cases k with
      | zero => simp
      | succ k => simpa using ih k (by simpa using h)

lemma mapM_ok_of_all_ok {γ ε : Type} {f : γ → Except ε γ} :
    ∀ (l : List γ), (∀ x ∈ l, f x = Except.ok x) → l.mapM f = Except.ok l := by
  intro l
  induction l with
  | nil => intro _; rfl
  | cons x t ih =>
      intro h
      rw [List.mapM_cons, h x (by simp), ih (fun y hy => h y (by simp [hy]))]
      rfl

lemma mapM_ok_of_pointwise {γ ε δ : Type} {f : γ → Except ε δ}
    {gg : γ → δ} :
    ∀ (l : List γ), (∀ x ∈ l, f x = Except.ok (gg x)) →
      l.mapM f = Except.ok (l.map gg) := by
  intro l
  induction l with
  | nil => intro _; rfl
  | cons x t ih =>
      intro h
      rw [List.mapM_cons, h x (by simp), ih (fun y hy => h y (by simp [hy]))]
      rfl

section JonesLemmas

variable {K : Type} [Field K] [DecidableEq K]

lemma normalizedGainsGo_spec (r : ℕ) (orig : List (TB K)) :
    ∀ (n k : ℕ) (acc : List (TB K)), orig.length - k = n →
      acc.length = orig.length →
      normalizedGainsGo r orig acc (List.range' k n) =
        match (orig.drop k).mapM (normalizedData r) with
        | Except.error e => Except.error e
        | Except.ok ds => Except.ok (acc.take k ++ ds) := by
  intro n
  induction n with
  | zero =>
      intro k acc hk hacc
      have hge : orig.length ≤ k := by omega
      rw [List.drop_eq_nil_of_le hge]
      simp only [List.range', normalizedGainsGo, List.mapM_nil]
      rw [List.take_of_length_le (by omega)]
      show Except.ok acc = Except.ok (acc ++ [])
      rw [List.append_nil]
  | succ n ih =>
      intro k acc hk hacc
      have hklt : k < orig.length := by omega
      rw [List.range'_succ k n 1]
      rw [List.drop_eq_getElem_cons hklt, List.mapM_cons]
      simp only [normalizedGainsGo]
      rw [List.getD_eq_getElem orig [] hklt]
      cases hmd : normalizedData r (orig[k]) with
      | error e => rfl
      | ok d =>
          have hset : (acc.set k d).length = orig.length := by
            simp [hacc]
          have ihEq := ih (k + 1) (acc.set k d) (by omega) hset
          cases hms : (orig.drop (k + 1)).mapM (normalizedData r) with
          | error e =>
              rw [hms] at ihEq
              exact ihEq
          | ok ds =>
              rw [hms] at ihEq
              rw [take_succ_set acc k d (by omega)] at ihEq
              exact ihEq.trans (by
                show Except.ok ((acc.take k ++ [d]) ++ ds) =
                  Except.ok (acc.take k ++ (d :: ds))
                simp)

lemma normalizedGains_eq_mapM (r : ℕ) (g : List (TB K)) :
    normalizedGains r g = g.mapM (normalizedData r) := by
  have h := normalizedGainsGo_spec r g g.length 0 g (by omega) rfl
  rw [normalizedGains, List.range_eq_range' g.length]
  rw [h]
  simp only [List.drop_zero, List.take_zero, List.nil_append]
  cases g.mapM (normalizedData r) <;> rfl

end JonesLemmas

/-- Claim C10: `normalized_gains` writes into a fresh deep copy of the
gain array and computes each timeblock's result from the original input
array (`self.gain_array[t]`), never from the partially updated copy: the
copy-then-overwrite loop is exactly the pure per-timeblock map of
`_normalized_data` over the original array (stopping at the first
per-timeblock failure), so the returned value is fully determined by the
pre-normalization array and the store's own array value is untouched (in
this value-semantics embedding the deep copy is the fresh starting value
`gain_array` of the loop accumulator). -/
theorem normalized_gains_pure_map {K : Type} [Field K] [DecidableEq K]
    (r : ℕ) (g : List (TB K)) :
    normalizedGains r g = g.mapM (normalizedData r) :=
  normalizedGains_eq_mapM r g

section JonesClaims

variable {K : Type} [Field K] [DecidableEq K]

lemma omul_none_right (x : Option K) : omul x none = none := by
  cases x <;> rfl

lemma oadd_none_right (x : Option K) : oadd x none = none := by
  cases x <;> rfl

lemma map_eq_self_of {γ : Type} {f : γ → γ} :
    ∀ {l : List γ}, (∀ x ∈ l, f x = x) → l.map f = l := by
  intro l
  induction l with
  | nil => intro _; rfl
  | cons x t ih =>
      intro h
      rw [List.map_cons, h x (by simp), ih (fun y hy => h y (by simp [hy]))]

lemma invJ_identity :
    invJ [some (1 : K), some 0, some 0, some 1] =
      Except.ok [some 1, some 0, some 0, some 1] := by
  rw [invJ]
  rw [if_neg (by norm_num)]
  norm_num

lemma mulJ_identity (a b c d : K) :
    mulJ [some a, some b, some c, some d] [some 1, some 0, some 0, some 1] =
      [some a, some b, some c, some d] := by
  simp [mulJ, omul, oadd]

lemma zipWith_mulJ_replicate_id :
    ∀ (tile : List (List (Option K))),
      (∀ row ∈ tile, ∃ a b c d : K, row = [some a, some b, some c, some d]) →
      ∀ m, tile.length ≤ m →
        List.zipWith mulJ tile
          (List.replicate m [some (1 : K), some 0, some 0, some 1]) = tile := by
  intro tile
  induction tile with
  | nil => intro _ m _; simp
  | cons row rest ih =>
      intro h m hm
      cases m with
      | zero => simp at hm
      | succ m =>
          obtain ⟨a, b, c, d, hrow⟩ := h row (by simp)
          rw [List.replicate_succ, List.zipWith_cons_cons, hrow, mulJ_identity]
          rw [ih (fun y hy => h y (by simp [hy])) m (by simpa using hm)]

/-- Claim C4 (amended): for every gain array all of whose entries are
finite (each polarization row is a 4-vector of non-NaN values),
normalizing against a reference antenna whose own Jones matrix is the
identity at every channel is a no-op. The restriction to NaN-free
entries is forced: a NaN entry elsewhere in an antenna's Jones matrix
contaminates the finite entries of its row under the `dot` with the
identity (`finite·1 + NaN·0 = NaN`), see the counterexample. -/
theorem normalized_gains_identity_ref (r : ℕ) (g : List (TB K))
    (hrect : ∀ tb ∈ g, ∀ ant ∈ tb, ant.length = (tb.getD r []).length)
    (hfin : ∀ tb ∈ g, ∀ ant ∈ tb, ∀ row ∈ ant,
      ∃ a b c d : K, row = [some a, some b, some c, some d])
    (href : ∀ tb ∈ g, ∀ row ∈ tb.getD r [],
      row = [some 1, some 0, some 0, some 1]) :
    normalizedGains r g = Except.ok g := by
  rw [normalizedGains_eq_mapM]
  apply mapM_ok_of_all_ok
  intro tb htb
  have hrefs : (tb.getD r []).mapM invJ =
      Except.ok ((tb.getD r []).map
        (fun _ => [some (1 : K), some 0, some 0, some 1])) := by
    apply mapM_ok_of_pointwise
    intro row hrow
    rw [href tb htb row hrow]
    exact invJ_identity
  have hstep : normalizedData r tb =
      Except.ok (tb.map (fun tile => List.zipWith mulJ tile
        ((tb.getD r []).map
          (fun _ => [some (1 : K), some 0, some 0, some 1])))) := by
    simp only [normalizedData, hrefs]
    rfl
  rw [hstep]
  have hconst : (tb.getD r []).map
      (fun _ => [some (1 : K), some 0, some 0, some 1]) =
      List.replicate (tb.getD r []).length
        [some (1 : K), some 0, some 0, some 1] := by
    simp [List.map_const']
  rw [hconst]
  congr 1
  apply map_eq_self_of
  intro tile htile
  exact zipWith_mulJ_replicate_id tile (hfin tb htb tile htile) _
    (le_of_eq (hrect tb htb tile htile))

/-- Claim C4 witness: an all-finite two-antenna, one-channel gain array
whose second antenna (the reference) is the identity is returned
unchanged by normalization. -/
theorem normalized_gains_identity_ref_witness :
    normalizedGains 1
      [[[[some (2 : ℂ), some 3, some 0, some 1]],
        [[some 1, some 0, some 0, some 1]]]] =
      Except.ok
        [[[[some (2 : ℂ), some 3, some 0, some 1]],
          [[some 1, some 0, some 0, some 1]]]] := by
  refine normalized_gains_identity_ref 1 _ ?_ ?_ ?_
  · intro tb htb ant hant
    simp only [List.mem_singleton] at htb
    subst htb
    simp only [List.mem_cons, List.mem_singleton] at hant
    rcases hant with rfl | rfl | h
    · rfl
    · rfl
    · cases h
  · intro tb htb ant hant row hrow
    simp only [List.mem_singleton] at htb
    subst htb
    simp only [List.mem_cons, List.mem_singleton] at hant
    rcases hant with rfl | rfl | h
    · simp only [List.mem_singleton] at hrow
      subst hrow
      exact ⟨2, 3, 0, 1, rfl⟩
    · simp only [List.mem_singleton] at hrow
      subst hrow
      exact ⟨1, 0, 0, 1, rfl⟩
    · cases h
  · intro tb htb row hrow
    simp only [List.mem_singleton] at htb
    subst htb
    have hrow' : row ∈ [[some (1 : ℂ), some 0, some 0, some 1]] := hrow
    simp only [List.mem_singleton] at hrow'
    subst hrow'
    rfl

/-- Claim C4 counterexample: the claim as stated — a no-op for every
valid gain array — fails on arrays with NaN entries (which the data
model admits for flagged entries): with the reference antenna (index 1)
the identity, the other antenna's Jones row `[1, NaN, 0, 1]` becomes
`[NaN, NaN, 0, 1]` after normalization, because the `dot` computes
`1·1 + NaN·0 = NaN` for the first entry. -/
theorem normalized_gains_identity_ref_cex :
    normalizedGains 1
      [[[[some (1 : ℂ), none, some 0, some 1]],
        [[some 1, some 0, some 0, some 1]]]] =
      Except.ok
        [[[[none, none, some 0, some 1]],
          [[some (1 : ℂ), some 0, some 0, some 1]]]] ∧
    ([[[[some (1 : ℂ), none, some 0, some 1]],
        [[some 1, some 0, some 0, some 1]]]] : List (TB ℂ)) ≠
      [[[[none, none, some 0, some 1]],
        [[some (1 : ℂ), some 0, some 0, some 1]]]] := by
  have hrefs : ([[some (1 : ℂ), some 0, some 0, some 1]] :
      List (List (Option ℂ))).mapM invJ =
      Except.ok [[some (1 : ℂ), some 0, some 0, some 1]] := by
    rw [List.mapM_cons, invJ_identity, List.mapM_nil]
    rfl
  have hnd : normalizedData 1
      ([[[some (1 : ℂ), none, some 0, some 1]],
        [[some 1, some 0, some 0, some 1]]] : TB ℂ) =
      Except.ok [[[none, none, some 0, some 1]],
        [[some (1 : ℂ), some 0, some 0, some 1]]] := by
    have hgd : ([[[some (1 : ℂ), none, some 0, some 1]],
        [[some 1, some 0, some 0, some 1]]] : TB ℂ).getD 1 [] =
        [[some (1 : ℂ), some 0, some 0, some 1]] := rfl
    simp only [normalizedData, hgd, hrefs]
    show Except.ok _ = _
    norm_num [mulJ, omul, oadd]
  constructor
  · show normalizedGainsGo 1 _ _ (List.range 1) = _
    rw [show List.range 1 = [0] from rfl]
    simp only [normalizedGainsGo]
    rw [show ([[[[some (1 : ℂ), none, some 0, some 1]],
        [[some 1, some 0, some 0, some 1]]]] : List (TB ℂ)).getD 0 [] =
        [[[some (1 : ℂ), none, some 0, some 1]],
          [[some 1, some 0, some 0, some 1]]] from rfl, hnd]
    rfl
  · simp

end JonesClaims

section JonesClaims2

variable {K : Type} [Field K] [DecidableEq K]

lemma invJ_nan_row (a b c d : Option K) (h : none ∈ [a, b, c, d]) :
    invJ [a, b, c, d] = Except.ok [none, none, none, none] := by
  rcases a with _ | av <;> rcases b with _ | bv <;> rcases c with _ | cv <;>
    rcases d with _ | dv <;> first
      | rfl
      | simp at h

lemma mulJ_nan_ref (row : List (Option K)) :
    mulJ row [none, none, none, none] = [none, none, none, none] := by
  rcases row with _ | ⟨a, _ | ⟨b, _ | ⟨c, _ | ⟨d, _ | ⟨e, t⟩⟩⟩⟩⟩ <;>
    first
      | rfl
      | simp [mulJ, omul_none_right, oadd_none_right]

lemma mapM_invJ_mixed :
    ∀ (rows : List (List (Option K))),
      (∀ row ∈ rows, (row.length = 4 ∧ none ∈ row) ∨
        ∃ a b c d : K, row = [some a, some b, some c, some d] ∧
          a * d - b * c ≠ 0) →
      ∃ refs, rows.mapM invJ = Except.ok refs ∧
        refs.length = rows.length ∧
        ∀ c, none ∈ rows.getD c [] →
          refs.getD c [] = [none, none, none, none] := by
  intro rows
  induction rows with
  | nil =>
      intro _
      exact ⟨[], rfl, rfl, by intro c hc; simp [List.getD] at hc⟩
  | cons row rest ih =>
      intro h
      obtain ⟨refs, hmap, hlen, hnan⟩ :=
        ih (fun y hy => h y (by simp [hy]))
      rcases h row (by simp) with ⟨hl4, hmem⟩ | ⟨a, b, c, d, hrow, hdet⟩
      · have hrow4 : ∃ a b c d : Option K, row = [a, b, c, d] := by
          rcases row with _ | ⟨a, _ | ⟨b, _ | ⟨c, _ | ⟨d, _ | t⟩⟩⟩⟩ <;>
            simp at hl4
          exact ⟨a, b, c, d, rfl⟩
        obtain ⟨a, b, c, d, hrow⟩ := hrow4
        subst hrow
        refine ⟨[none, none, none, none] :: refs, ?_, by simp [hlen], ?_⟩
        · rw [List.mapM_cons, invJ_nan_row a b c d hmem, hmap]
          rfl
        · intro k hk
          cases k with
          | zero => rfl
          | succ k => exact hnan k hk
      · subst hrow
        refine ⟨[some (d / (a * d - b * c)), some (-b / (a * d - b * c)),
          some (-c / (a * d - b * c)), some (a / (a * d - b * c))] :: refs,
          ?_, by simp [hlen], ?_⟩
        · rw [List.mapM_cons]
          rw [show invJ [some a, some b, some c, some d] =
            Except.ok [some (d / (a * d - b * c)), some (-b / (a * d - b * c)),
              some (-c / (a * d - b * c)), some (a / (a * d - b * c))] from by
            rw [invJ, if_neg hdet]]
          rw [hmap]
          rfl
        · intro k hk
          cases k with
          | zero => simp at hk
          | succ k => exact hnan k hk

/-- Claim C3 (amended): during normalization of one timeblock, a
reference-antenna Jones matrix containing NaN entries on some channel is
recovered per channel — `np.linalg.inv` propagates NaN without raising,
and the channel's normalized output is all-NaN for every antenna while
all other channels and the call as a whole still complete. A channel
whose reference matrix is finite but exactly singular, however, makes
`np.linalg.inv` raise `LinAlgError`, and since `_normalized_data` has no
try/except this aborts the whole run (see the counterexample); the
claim's blanket statement over every non-invertible matrix is therefore
too strong. -/
theorem normalized_data_nan_channel (r : ℕ) (data : TB K)
    (h : ∀ row ∈ data.getD r [], (row.length = 4 ∧ none ∈ row) ∨
      ∃ a b c d : K, row = [some a, some b, some c, some d] ∧
        a * d - b * c ≠ 0) :
    ∃ refs, (data.getD r []).mapM invJ = Except.ok refs ∧
      normalizedData r data =
        Except.ok (data.map (fun tile => List.zipWith mulJ tile refs)) ∧
      ∀ tile ∈ data, ∀ c, none ∈ (data.getD r []).getD c [] →
        c < (List.zipWith mulJ tile refs).length →
          (List.zipWith mulJ tile refs).getD c [] =
            [none, none, none, none] := by
  obtain ⟨refs, hmap, hlen, hnan⟩ := mapM_invJ_mixed (data.getD r []) h
  refine ⟨refs, hmap, ?_, ?_⟩
  · simp only [normalizedData, hmap]
    rfl
  · intro tile htile c hc hclt
    have hlens : c < tile.length ∧ c < refs.length := by
      rw [List.length_zipWith] at hclt
      omega
    rw [List.getD_eq_getElem _ _ hclt, List.getElem_zipWith]
    have hrc : refs[c] = [none, none, none, none] := by
      have := hnan c hc
      rwa [List.getD_eq_getElem _ _ hlens.2] at this
    rw [hrc, mulJ_nan_ref]

/-- Claim C3 witness: a one-antenna timeblock whose reference matrix has
a NaN entry on channel 0 and is the identity on channel 1 normalizes
successfully, with channel 0 of the output all-NaN. -/
theorem normalized_data_nan_channel_witness :
    ∃ refs, (([[[some (1 : ℂ), none, some 0, some 1],
        [some 1, some 0, some 0, some 1]]] : TB ℂ).getD 0 []).mapM invJ =
        Except.ok refs ∧
      normalizedData 0
        ([[[some (1 : ℂ), none, some 0, some 1],
          [some 1, some 0, some 0, some 1]]] : TB ℂ) =
        Except.ok (([[[some (1 : ℂ), none, some 0, some 1],
          [some 1, some 0, some 0, some 1]]] : TB ℂ).map
            (fun tile => List.zipWith mulJ tile refs)) ∧
      ∀ tile ∈ ([[[some (1 : ℂ), none, some 0, some 1],
          [some 1, some 0, some 0, some 1]]] : TB ℂ), ∀ c,
        none ∈ (([[[some (1 : ℂ), none, some 0, some 1],
          [some 1, some 0, some 0, some 1]]] : TB ℂ).getD 0 []).getD c [] →
        c < (List.zipWith mulJ tile refs).length →
          (List.zipWith mulJ tile refs).getD c [] =
            [none, none, none, none] := by
  apply normalized_data_nan_channel
  intro row hrow
  have hrow' : row ∈ [[some (1 : ℂ), none, some 0, some 1],
      [some 1, some 0, some 0, some 1]] := hrow
  simp only [List.mem_cons, List.mem_singleton] at hrow'
  rcases hrow' with rfl | rfl | hfalse
  · exact Or.inl ⟨rfl, by simp⟩
  · exact Or.inr ⟨1, 0, 0, 1, rfl, by norm_num⟩
  · cases hfalse

/-- Claim C3 counterexample: a finite, exactly singular reference Jones
matrix (all zeros) on a single channel makes the whole normalization run
abort with numpy's `LinAlgError` (`SingularMatrixError`) instead of
recovering that channel as NaN: `np.linalg.inv` raises and nothing in
`_normalized_data` or `normalized_gains` catches it. -/
theorem singular_ref_channel_aborts :
    normalizedGains 0 [[[[some (0 : ℂ), some 0, some 0, some 0]]]] =
      Except.error PyErr.singularMatrix := by
  have hinv : invJ [some (0 : ℂ), some 0, some 0, some 0] =
      Except.error PyErr.singularMatrix := by
    rw [invJ, if_pos (by norm_num)]
  have hmapM : ([[some (0 : ℂ), some 0, some 0, some 0]] :
      List (List (Option ℂ))).mapM invJ =
      Except.error PyErr.singularMatrix := by
    rw [List.mapM_cons, hinv]
    rfl
  have hnd : normalizedData 0
      ([[[some (0 : ℂ), some 0, some 0, some 0]]] : TB ℂ) =
      Except.error PyErr.singularMatrix := by
    have hgd : ([[[some (0 : ℂ), some 0, some 0, some 0]]] : TB ℂ).getD 0 [] =
        [[some (0 : ℂ), some 0, some 0, some 0]] := rfl
    simp only [normalizedData, hgd, hmapM]
    rfl
  show normalizedGainsGo 0 _ _ (List.range 1) = _
  rw [show List.range 1 = [0] from rfl]
  simp only [normalizedGainsGo]
  rw [show ([[[[some (0 : ℂ), some 0, some 0, some 0]]]] :
      List (TB ℂ)).getD 0 [] =
      [[[some (0 : ℂ), some 0, some 0, some 0]]] from rfl, hnd]

end JonesClaims2

section ConjClaims

variable {K : Type} [Field K] [DecidableEq K] [StarRing K]

lemma omul_conj_swap (x y : Option K) :
    omul y (Option.map (fun z => star z) x) =
      Option.map (fun z => star z) (omul x (Option.map (fun z => star z) y)) := by
  cases x <;> cases y <;> simp [omul, star_mul, star_star, mul_comm]

lemma zipWith_omul_conj_swap :
    ∀ (r s : List (Option K)),
      List.zipWith omul s (r.map (Option.map (fun z => star z))) =
        (List.zipWith omul r (s.map (Option.map (fun z => star z)))).map
          (Option.map (fun z => star z)) := by
  intro r
  induction r with
  | nil => intro s; cases s <;> simp
  | cons x rt ih =>
      intro s
      cases s with
      | nil => simp
      | cons y st =>
          rw [List.map_cons, List.map_cons, List.zipWith_cons_cons,
            List.zipWith_cons_cons, List.map_cons, omul_conj_swap x y, ih st]

lemma zipWith_rows_conj_swap :
    ∀ (a b : List (List (Option K))),
      List.zipWith (fun r s => List.zipWith omul r s) b
        (a.map (fun r => r.map (Option.map (fun z => star z)))) =
        (List.zipWith (fun r s => List.zipWith omul r s) a
          (b.map (fun r => r.map (Option.map (fun z => star z))))).map
            (fun r => r.map (Option.map (fun z => star z))) := by
  intro a
  induction a with
  | nil => intro b; cases b <;> simp
  | cons x at' ih =>
      intro b
      cases b with
      | nil => simp
      | cons y bt =>
          rw [List.map_cons, List.map_cons, List.zipWith_cons_cons,
            List.zipWith_cons_cons, List.map_cons,
            zipWith_omul_conj_swap x y, ih bt]

lemma mulArr_conj_swap :
    ∀ (x y : List (List (List (Option K)))),
      mulArr y (conjArr x) = conjArr (mulArr x (conjArr y)) := by
  intro x
  induction x with
  | nil => intro y; cases y <;> simp [mulArr, conjArr]
  | cons a xt ih =>
      intro y
      cases y with
      | nil => simp [mulArr, conjArr]
      | cons b yt =>
          simp only [mulArr, conjArr, List.map_cons, List.zipWith_cons_cons]
          refine List.cons_eq_cons.mpr ⟨zipWith_rows_conj_swap a b, ?_⟩
          have h := ih yt
          simpa [mulArr, conjArr] using h

/-- Claim C8: for all antenna numbers `a` and `b`,
`gains_for_antpair((a, b))` is the elementwise product of antenna `a`'s
gains with the complex conjugate of antenna `b`'s gains, and swapping
the pair conjugates the result: `gains_for_antpair((b, a)) =
conj(gains_for_antpair((a, b)))` (elementwise, NaN entries staying NaN). -/
theorem gains_for_antpair_product_and_swap (g : List (TB K)) (a b : ℕ) :
    gainsForAntpair g (a, b) =
      mulArr (gainsForAntnum g a) (conjArr (gainsForAntnum g b)) ∧
    gainsForAntpair g (b, a) = conjArr (gainsForAntpair g (a, b)) := by
  refine ⟨rfl, ?_⟩
  show mulArr (gainsForAntnum g b) (conjArr (gainsForAntnum g a)) =
    conjArr (mulArr (gainsForAntnum g a) (conjArr (gainsForAntnum g b)))
  exact mulArr_conj_swap (gainsForAntnum g a) (gainsForAntnum g b)

end ConjClaims

section FftClaims

lemma scatter_length {β : Type} :
    ∀ (idxs : List ℕ) (vals : List β) (base : List β),
      (scatter base idxs vals).length = base.length := by
  intro idxs
  induction idxs with
  | nil => intro vals base; rfl
  | cons i rest ih =>
      intro vals base
      cases vals with
      | nil => rfl
      | cons v vr =>
          show (scatter (base.set i v) rest vr).length = _
          rw [ih vr (base.set i v), List.length_set]

lemma getD_scatter_not_mem {β : Type} :
    ∀ (idxs : List ℕ) (vals : List β) (base : List β) (j : ℕ) (d : β),
      j ∉ idxs → (scatter base idxs vals).getD j d = base.getD j d := by
  intro idxs
  induction idxs with
  | nil => intro vals base j d _; rfl
  | cons i rest ih =>
      intro vals base j d hj
      cases vals with
      | nil => rfl
      | cons v vr =>
          have hij : i ≠ j := fun h => hj (h ▸ List.mem_cons_self i rest)
          show (scatter (base.set i v) rest vr).getD j d = _
          rw [ih vr (base.set i v) j d (fun h => hj (by simp [h]))]
          simp only [List.getD, List.get?_eq_getElem?]
          rw [List.getElem?_set_ne hij]

lemma getD_scatter_nodup {β : Type} :
    ∀ (idxs : List ℕ) (vals : List β) (base : List β) (k : ℕ) (d : β),
      idxs.Nodup → k < idxs.length → k < vals.length →
      idxs.getD k 0 < base.length →
      (scatter base idxs vals).getD (idxs.getD k 0) d = vals.getD k d := by
  intro idxs
  induction idxs with
  | nil => intro vals base k d _ hk _ _; simp at hk
  | cons i rest ih =>
      intro vals base k d hnd hk hkv hb
      cases vals with
      | nil => simp at hkv
      | cons v vr =>
          cases k with
          | zero =>
              have hib : i < base.length := hb
              have hmem : i ∉ rest := (List.nodup_cons.mp hnd).1
              show (scatter (base.set i v) rest vr).getD i d = v
              rw [getD_scatter_not_mem rest vr (base.set i v) i d hmem]
              simp only [List.getD, List.get?_eq_getElem?]
              rw [List.getElem?_set_eq_of_lt v (by simpa using hib)]
              rfl
          | succ k =>
              show (scatter (base.set i v) rest vr).getD (rest.getD k 0) d =
                vr.getD k d
              exact ih vr (base.set i v) k d (List.nodup_cons.mp hnd).2
                (by simpa using hk) (by simpa using hkv)
                (by simpa using hb)

lemma mem_nonanIndices_iff (slice : List (Option ℂ)) (c : ℕ) :
    c ∈ nonanIndices slice ↔
      c < slice.length ∧ (slice.getD c none).isSome := by
  simp [nonanIndices, List.mem_filter, List.mem_range]

lemma mem_nanIndices_iff (slice : List (Option ℂ)) (c : ℕ) :
    c ∈ nanIndices slice ↔
      c < slice.length ∧ (slice.getD c none).isNone := by
  simp [nanIndices, List.mem_filter, List.mem_range]

lemma nonanIndices_nodup (slice : List (Option ℂ)) :
    (nonanIndices slice).Nodup :=
  (List.nodup_range slice.length).filter _

lemma nanIndices_nodup (slice : List (Option ℂ)) :
    (nanIndices slice).Nodup :=
  (List.nodup_range slice.length).filter _

lemma nonanIndices_cons (x : Option ℂ) (s : List (Option ℂ)) :
    nonanIndices (x :: s) =
      if x.isSome then 0 :: (nonanIndices s).map (· + 1)
      else (nonanIndices s).map (· + 1) := by
  show (List.range (s.length + 1)).filter _ = _
  rw [List.range_succ_eq_map, List.filter_cons]
  have hcomp : List.filter (fun c => ((x :: s).getD c none).isSome)
      ((List.range s.length).map (· + 1)) =
      ((List.range s.length).filter
        (fun c => (s.getD c none).isSome)).map (· + 1) := by
    rw [List.filter_map]
    rfl
  rw [hcomp]
  by_cases hx : x.isSome
  · rw [if_pos (show ((x :: s).getD 0 none).isSome = true from hx),
      if_pos hx]
    rfl
  · rw [if_neg (show ¬ ((x :: s).getD 0 none).isSome = true from hx),
      if_neg hx]
    rfl

lemma length_filterMap_id_eq :
    ∀ (slice : List (Option ℂ)),
      (slice.filterMap id).length = (nonanIndices slice).length := by
  intro slice
  induction slice with
  | nil => rfl
  | cons x s ih =>
      rw [nonanIndices_cons]
      cases x with
      | none => simpa [List.filterMap_cons] using ih
      | some v => simpa [List.filterMap_cons] using ih

lemma dft_length (v : List ℂ) : (dft v).length = v.length := by
  simp only [dft]
  rw [List.length_map, List.length_range]

lemma fftshift_length {β : Type} (v : List β) :
    (fftshift v).length = v.length := by
  simp only [fftshift, List.length_append, List.length_drop,
    List.length_take]
  omega

lemma nonanIndices_eq_nil_of_all_none (slice : List (Option ℂ))
    (hall : ∀ x ∈ slice, x = none) : nonanIndices slice = [] := by
  apply List.filter_eq_nil_iff.mpr
  intro c hc
  have hc' : c < slice.length := List.mem_range.mp hc
  have hx : slice.getD c none = none := by
    rw [List.getD_eq_getElem _ _ hc']
    exact hall _ (List.getElem_mem hc')
  rw [hx]
  simp

lemma getD_replicate_none (n c : ℕ) :
    (List.replicate n (none : Option ℂ)).getD c none = none := by
  simp only [List.getD, List.get?_eq_getElem?, List.getElem?_replicate]
  split <;> rfl

lemma fftSlice_of_nil (window : List ℝ) (slice : List (Option ℂ))
    (h : nonanIndices slice = []) :
    fftSlice window slice = List.replicate slice.length none := by
  unfold fftSlice
  rw [if_pos h]

lemma fftSlice_of_ne (window : List ℝ) (slice : List (Option ℂ))
    (h : ¬ nonanIndices slice = []) :
    fftSlice window slice =
      scatter
        (scatter (List.replicate slice.length (some 0)) (nonanIndices slice)
          ((fftshift (dft (List.zipWith
            (fun z i => z * ((window.getD i 0 : ℝ) : ℂ))
            (slice.filterMap id) (nonanIndices slice)))).map some))
        (nanIndices slice) ((nanIndices slice).map (fun _ => none)) := by
  unfold fftSlice
  rw [if_neg h]

lemma getD_map_of_lt {γ δ : Type} (f : γ → δ) (l : List γ) (i : ℕ)
    (h : i < l.length) (d : γ) (e : δ) :
    (l.map f).getD i e = f (l.getD i d) := by
  rw [List.getD_eq_getElem _ _ (by simpa using h),
    List.getD_eq_getElem _ _ h, List.getElem_map]

lemma getD_range_of_lt (n c : ℕ) (h : c < n) :
    (List.range n).getD c 0 = c := by
  rw [List.getD_eq_getElem _ _ (by simpa using h), List.getElem_range]

/-- Claim C6: per (timeblock, antenna, polarization) slice, `gains_fft`
preserves the channel count (first conjunct), turns an entirely NaN
slice into a wholly NaN slice instead of raising — `np.fft.fft` of the
empty selection raises `ValueError`, which the except-branch converts
(second conjunct) — re-inserts NaN at originally NaN channel positions
(third conjunct), and at the `k`-th non-NaN channel position stores the
`k`-th entry of the `fftshift`ed discrete Fourier transform of the
non-NaN subsequence multiplied by the window coefficients at its own
channel positions (fourth conjunct); the last conjunct connects the
assembled 4-D `gains_fft` output entrywise to this per-slice transform
of the corresponding frequency column. -/
theorem gains_fft_per_slice :
    (∀ (window : List ℝ) (slice : List (Option ℂ)),
      (fftSlice window slice).length = slice.length) ∧
    (∀ (window : List ℝ) (slice : List (Option ℂ)),
      (∀ x ∈ slice, x = none) →
      fftSlice window slice = List.replicate slice.length none) ∧
    (∀ (window : List ℝ) (slice : List (Option ℂ)) (c : ℕ),
      c < slice.length → slice.getD c none = none →
      (fftSlice window slice).getD c none = none) ∧
    (∀ (window : List ℝ) (slice : List (Option ℂ)) (k : ℕ),
      k < (nonanIndices slice).length →
      (fftSlice window slice).getD ((nonanIndices slice).getD k 0) none =
        some ((fftshift (dft (List.zipWith
          (fun z i => z * ((window.getD i 0 : ℝ) : ℂ))
          (slice.filterMap id) (nonanIndices slice)))).getD k 0)) ∧
    (∀ (g : List (TB ℂ)) (window : List ℝ) (t a c p : ℕ),
      t < g.length → a < (g.getD t []).length →
      c < ((g.getD t []).getD a []).length →
      p < (((g.getD t []).getD a []).getD 0 []).length →
      ((((gainsFft g window).getD t []).getD a []).getD c []).getD p none =
        (fftSlice window
          (((g.getD t []).getD a []).map
            (fun row => row.getD p none))).getD c none) := by
  refine ⟨?_, ?_, ?_, ?_, ?_⟩
  · intro window slice
    by_cases h : nonanIndices slice = []
    · rw [fftSlice_of_nil window slice h, List.length_replicate]
    · rw [fftSlice_of_ne window slice h, scatter_length, scatter_length,
        List.length_replicate]
  · intro window slice hall
    exact fftSlice_of_nil window slice
      (nonanIndices_eq_nil_of_all_none slice hall)
  · intro window slice c hc hcn
    by_cases h : nonanIndices slice = []
    · rw [fftSlice_of_nil window slice h, getD_replicate_none]
    · rw [fftSlice_of_ne window slice h]
      have hmem : c ∈ nanIndices slice :=
        (mem_nanIndices_iff slice c).mpr ⟨hc, by rw [hcn]; rfl⟩
      obtain ⟨k, hk, hkc⟩ := List.mem_iff_getElem.mp hmem
      have hkd : (nanIndices slice).getD k 0 = c := by
        rw [List.getD_eq_getElem _ _ hk, hkc]
      rw [← hkd]
      rw [getD_scatter_nodup (nanIndices slice)
        ((nanIndices slice).map (fun _ => none)) _ k none
        (nanIndices_nodup slice) hk (by simpa using hk)
        (by rw [hkd, scatter_length, List.length_replicate]; exact hc)]
      rw [List.getD_eq_getElem _ _ (by simpa using hk), List.getElem_map]
  · intro window slice k hk
    have hne : ¬ nonanIndices slice = [] := by
      intro h
      rw [h] at hk
      simp at hk
    rw [fftSlice_of_ne window slice hne]
    have hcmem : (nonanIndices slice).getD k 0 ∈ nonanIndices slice := by
      rw [List.getD_eq_getElem _ _ hk]
      exact List.getElem_mem hk
    have hcbound : (nonanIndices slice).getD k 0 < slice.length :=
      ((mem_nonanIndices_iff _ _).mp hcmem).1
    have hcsome : (slice.getD ((nonanIndices slice).getD k 0) none).isSome :=
      ((mem_nonanIndices_iff _ _).mp hcmem).2
    have hnotnan : (nonanIndices slice).getD k 0 ∉ nanIndices slice := by
      intro hmem2
      have h2 := ((mem_nanIndices_iff _ _).mp hmem2).2
      rcases hval : slice.getD ((nonanIndices slice).getD k 0) none with _ | z
      · rw [hval] at hcsome
        simp at hcsome
      · rw [hval] at h2
        simp at h2
    rw [getD_scatter_not_mem _ _ _ _ _ hnotnan]
    have hlenw : (List.zipWith (fun z i => z * ((window.getD i 0 : ℝ) : ℂ))
        (slice.filterMap id) (nonanIndices slice)).length =
        (nonanIndices slice).length := by
      rw [List.length_zipWith, length_filterMap_id_eq]
      exact min_self _
    have hlenshift : (fftshift (dft (List.zipWith
        (fun z i => z * ((window.getD i 0 : ℝ) : ℂ))
        (slice.filterMap id) (nonanIndices slice)))).length =
        (nonanIndices slice).length := by
      rw [fftshift_length, dft_length, hlenw]
    rw [getD_scatter_nodup (nonanIndices slice) _ _ k none
      (nonanIndices_nodup slice) hk
      (by rw [List.length_map, hlenshift]; exact hk)
      (by rw [List.length_replicate]; exact hcbound)]
    rw [List.getD_eq_getElem _ _ (by rw [List.length_map, hlenshift]; exact hk),
      List.getD_eq_getElem _ _ (by rw [hlenshift]; exact hk),
      List.getElem_map]
  · intro g window t a c p ht ha hc hp
    rw [show (gainsFft g window).getD t [] =
        ((g.getD t []).map (fun ant =>
          (List.range ant.length).map (fun c2 =>
            (List.range (ant.getD 0 []).length).map (fun p2 =>
              (fftSlice window (ant.map (fun row => row.getD p2 none))).getD
                c2 none)))) from getD_map_of_lt _ g t ht [] []]
    rw [getD_map_of_lt _ (g.getD t []) a ha [] []]
    rw [getD_map_of_lt _
      (List.range ((g.getD t []).getD a []).length) c (by simpa using hc) 0 []]
    rw [getD_map_of_lt _
      (List.range (((g.getD t []).getD a []).getD 0 []).length) p
      (by simpa using hp) 0 none]
    rw [getD_range_of_lt _ c hc, getD_range_of_lt _ p hp]

/-- Claim C6 witness: on the two-channel slice `[NaN, 1]` with window
coefficients `[2, 3]`, the transform keeps the length, re-inserts NaN at
channel 0, stores the shifted transform of the windowed one-point
subsequence at channel 1, sends the all-NaN slice to all-NaN, and the
assembled `gains_fft` entry agrees with the per-slice transform. -/
theorem gains_fft_per_slice_witness :
    (fftSlice [2, 3] [none, some (1 : ℂ)]).length = 2 ∧
    fftSlice [2, 3] ([none, none] : List (Option ℂ)) =
      List.replicate 2 none ∧
    (fftSlice [2, 3] [none, some (1 : ℂ)]).getD 0 none = none ∧
    (fftSlice [2, 3] [none, some (1 : ℂ)]).getD
        ((nonanIndices [none, some (1 : ℂ)]).getD 0 0) none =
      some ((fftshift (dft (List.zipWith
        (fun z i => z * ((([2, 3] : List ℝ).getD i 0 : ℝ) : ℂ))
        (([none, some (1 : ℂ)] : List (Option ℂ)).filterMap id)
        (nonanIndices [none, some (1 : ℂ)])))).getD 0 0) ∧
    ((((gainsFft [[[[none], [some (1 : ℂ)]]]] [2, 3]).getD 0 []).getD 0
        []).getD 1 []).getD 0 none =
      (fftSlice [2, 3]
        (((([[[[none], [some (1 : ℂ)]]]] : List (TB ℂ)).getD 0 []).getD 0
          []).map (fun row => row.getD 0 none))).getD 1 none := by
  refine ⟨gains_fft_per_slice.1 [2, 3] _,
    gains_fft_per_slice.2.1 [2, 3] _ (by simp),
    gains_fft_per_slice.2.2.1 [2, 3] _ 0 (by decide) rfl,
    gains_fft_per_slice.2.2.2.1 [2, 3] _ 0 (by decide),
    gains_fft_per_slice.2.2.2.2 _ [2, 3] 0 0 1 0 (by decide) (by decide)
      (by decide) (by decide)⟩

section SkewClaims

lemma getD_replicate_of_lt {γ : Type} (n i : ℕ) (x d : γ) (h : i < n) :
    (List.replicate n x).getD i d = x := by
  rw [List.getD_eq_getElem _ _ (by simpa using h), List.getElem_replicate]

lemma nonnans_replicate_fin (n : ℕ) (q : ℝ) :
    nonnans (List.replicate n (F.fin q)) = List.replicate n (F.fin q) := by
  apply List.filter_eq_self.mpr
  intro a ha
  rw [List.eq_of_mem_replicate ha]
  rfl

lemma replicate_fin_ne_nil (n : ℕ) (q : ℝ) (hn : 0 < n) :
    List.replicate n (F.fin q) ≠ [] := by
  cases n with
  | zero => omega
  | succ m => simp

lemma foldl_fadd_replicate :
    ∀ (n : ℕ) (q a : ℝ),
      (List.replicate n (F.fin q)).foldl F.fadd (F.fin a) =
        F.fin (a + n * q) := by
  intro n
  induction n with
  | zero =>
      intro q a
      simp only [List.replicate, List.foldl_nil, F.fin.injEq]
      push_cast
      ring
  | succ m ih =>
      intro q a
      show (List.replicate m (F.fin q)).foldl F.fadd
        (F.fadd (F.fin a) (F.fin q)) = _
      rw [show F.fadd (F.fin a) (F.fin q) = F.fin (a + q) from rfl, ih q]
      simp only [F.fin.injEq]
      push_cast
      ring

lemma fsum_replicate (n : ℕ) (q : ℝ) :
    fsum (List.replicate n (F.fin q)) = F.fin (n * q) := by
  rw [fsum, foldl_fadd_replicate]
  norm_num

lemma nanmean_replicate (n : ℕ) (q : ℝ) (hn : 0 < n) :
    nanmean (List.replicate n (F.fin q)) = F.fin q := by
  simp only [nanmean, nonnans_replicate_fin]
  rw [if_neg (replicate_fin_ne_nil n q hn), fsum_replicate,
    List.length_replicate]
  simp only [F.fdiv]
  rw [if_neg (Nat.cast_ne_zero.mpr (by omega) : (n : ℝ) ≠ 0)]
  simp only [F.fin.injEq]
  field_simp

lemma finsert_replicate (m : ℕ) (q : ℝ) :
    finsert (F.fin q) (List.replicate m (F.fin q)) =
      List.replicate (m + 1) (F.fin q) := by
  cases m with
  | zero => rfl
  | succ k =>
      show (if F.fleB (F.fin q) (F.fin q) then _ else _) = _
      rw [if_pos (by simp [F.fleB])]
      rfl

lemma fsort_replicate (n : ℕ) (q : ℝ) :
    fsort (List.replicate n (F.fin q)) = List.replicate n (F.fin q) := by
  induction n with
  | zero => rfl
  | succ m ih =>
      show finsert (F.fin q) (fsort (List.replicate m (F.fin q))) = _
      rw [ih, finsert_replicate]

lemma nanmedian_replicate (n : ℕ) (q : ℝ) (hn : 0 < n) :
    nanmedian (List.replicate n (F.fin q)) = F.fin q := by
  simp only [nanmedian, nonnans_replicate_fin, fsort_replicate,
    List.length_replicate]
  rw [if_neg (by omega)]
  by_cases h2 : n % 2 = 1
  · rw [if_pos h2, getD_replicate_of_lt n (n / 2) _ _ (by omega)]
  · rw [if_neg h2, getD_replicate_of_lt n (n / 2 - 1) _ _ (by omega),
      getD_replicate_of_lt n (n / 2) _ _ (by omega)]
    show F.fdiv (F.fin (q + q)) (F.fin 2) = F.fin q
    simp only [F.fdiv]
    rw [if_neg (by norm_num : (2 : ℝ) ≠ 0)]
    simp only [F.fin.injEq]
    ring

lemma nanvar_replicate (n : ℕ) (q : ℝ) (hn : 0 < n) :
    nanvar (List.replicate n (F.fin q)) = F.fin 0 := by
  simp only [nanvar, nonnans_replicate_fin]
  rw [if_neg (replicate_fin_ne_nil n q hn), nanmean_replicate n q hn]
  rw [show (List.replicate n (F.fin q)).map
      (fun x => F.fmul (F.fsub x (F.fin q)) (F.fsub x (F.fin q))) =
      List.replicate n (F.fin ((q + -q) * (q + -q))) from by
    rw [List.map_replicate]
    rfl]
  rw [fsum_replicate, List.length_replicate]
  simp only [F.fdiv]
  rw [if_neg (Nat.cast_ne_zero.mpr (by omega) : (n : ℝ) ≠ 0)]
  simp only [F.fin.injEq]
  rw [show q + -q = (0 : ℝ) from by ring]
  norm_num

lemma nanstd_replicate (n : ℕ) (q : ℝ) (hn : 0 < n) :
    nanstd (List.replicate n (F.fin q)) = F.fin 0 := by
  rw [nanstd, nanvar_replicate n q hn]
  simp [sqrtF, Real.sqrt_zero]

end SkewClaims

/-- Claim C5 (amended): `skewness_across_uvcut` restricts to the
supplied short-baseline antenna pairs and computes `np.nanmean`,
`np.nanmedian` and `np.nanstd` of the per-pair variances ACROSS PAIRS
within each timeblock (`axis=1`), forms the Pearson coefficient
`3 * (mean - median) / std` per timeblock and polarization, and takes
the maximum across timeblocks; `run_metrics` then reports the maximum
over the XX (index 0) and YY (index 3) entries (first two conjuncts).
When the per-pair variances at a timeblock are all equal the standard
deviation is zero and the coefficient is `0/0 = NaN` rather than an
exception (third conjunct). The claim's reading — mean across pairs
first, then mean/median/std across timeblocks — computes a different
quantity, refuted by the counterexample. -/
theorem skewness_across_pairs_then_max :
    (∀ (g : List (TB ℂ)) (baselines : List (ℕ × ℕ)),
      runMetricsSkewness g baselines =
        nanmax [(skewnessAcrossUvcut g baselines).getD 0 F.nan,
          (skewnessAcrossUvcut g baselines).getD 3 F.nan]) ∧
    (∀ (vars : List (List (List (F ℝ)))) (p : ℕ), p < 4 →
      (skewnessFromVariances vars).getD p F.nan =
        nanmax (vars.map (fun tslice =>
          F.fdiv (F.fmul (F.fin 3)
            (F.fsub (nanmean (tslice.map (fun pr => pr.getD p F.nan)))
              (nanmedian (tslice.map (fun pr => pr.getD p F.nan)))))
            (nanstd (tslice.map (fun pr => pr.getD p F.nan)))))) ∧
    (∀ (n : ℕ) (q : ℝ), 0 < n →
      F.fdiv (F.fmul (F.fin 3)
        (F.fsub (nanmean (List.replicate n (F.fin q)))
          (nanmedian (List.replicate n (F.fin q)))))
        (nanstd (List.replicate n (F.fin q))) = F.nan) := by
  refine ⟨fun g baselines => rfl, ?_, ?_⟩
  · intro vars p hp
    simp only [skewnessFromVariances]
    rw [getD_map_of_lt _ (List.range 4) p (by simpa using hp) 0 F.nan,
      getD_range_of_lt 4 p hp]
    congr 1
    rw [List.map_map]
    apply List.map_congr_left
    intro tslice _
    show ((List.range 4).map _).getD p F.nan = _
    rw [getD_map_of_lt _ (List.range 4) p (by simpa using hp) 0 F.nan,
      getD_range_of_lt 4 p hp]
  · intro n q hn
    rw [nanmean_replicate n q hn, nanmedian_replicate n q hn,
      nanstd_replicate n q hn]
    show F.fdiv (F.fmul (F.fin 3) (F.fin (q + -q))) (F.fin 0) = F.nan
    rw [show q + -q = (0 : ℝ) from by ring]
    show F.fdiv (F.fin (3 * 0)) (F.fin 0) = F.nan
    norm_num [F.fdiv]

/-- Claim C5 witness: the amended characterization applied to the empty
store and baseline list, and the zero-standard-deviation NaN case at
two equal variances of value 5. -/
theorem skewness_across_pairs_then_max_witness :
    runMetricsSkewness [] [] =
      nanmax [(skewnessAcrossUvcut [] []).getD 0 F.nan,
        (skewnessAcrossUvcut [] []).getD 3 F.nan] ∧
    (skewnessFromVariances []).getD 0 F.nan =
      nanmax (([] : List (List (List (F ℝ)))).map (fun tslice =>
        F.fdiv (F.fmul (F.fin 3)
          (F.fsub (nanmean (tslice.map (fun pr => pr.getD 0 F.nan)))
            (nanmedian (tslice.map (fun pr => pr.getD 0 F.nan)))))
          (nanstd (tslice.map (fun pr => pr.getD 0 F.nan))))) ∧
    F.fdiv (F.fmul (F.fin 3)
      (F.fsub (nanmean (List.replicate 2 (F.fin (5 : ℝ))))
        (nanmedian (List.replicate 2 (F.fin (5 : ℝ))))))
      (nanstd (List.replicate 2 (F.fin (5 : ℝ)))) = F.nan :=
  ⟨skewness_across_pairs_then_max.1 [] [],
    skewness_across_pairs_then_max.2.1 [] 0 (by norm_num),
    skewness_across_pairs_then_max.2.2 2 5 (by norm_num)⟩

section SkewCex

lemma nanvarC_pair (x y : ℝ) :
    nanvarC [some ((x : ℝ) : ℂ), some ((y : ℝ) : ℂ)] =
      F.fin ((x - y) ^ 2 / 4) := by
  simp only [nanvarC]
  rw [if_neg (show ¬ (([some ((x : ℝ) : ℂ), some ((y : ℝ) : ℂ)] :
    List (Option ℂ)).filterMap id = []) from by simp)]
  show F.fin ((Complex.normSq (((x : ℝ) : ℂ) -
      (((x : ℝ) : ℂ) + (((y : ℝ) : ℂ) + 0)) / (((2 : ℕ)) : ℂ)) +
      (Complex.normSq (((y : ℝ) : ℂ) -
        (((x : ℝ) : ℂ) + (((y : ℝ) : ℂ) + 0)) / (((2 : ℕ)) : ℂ)) + 0)) /
      (((2 : ℕ)) : ℝ)) = F.fin ((x - y) ^ 2 / 4)
  rw [show (((x : ℝ) : ℂ) + (((y : ℝ) : ℂ) + 0)) / (((2 : ℕ)) : ℂ) =
    (((x + y) / 2 : ℝ) : ℂ) from by push_cast; ring]
  rw [show ((x : ℝ) : ℂ) - (((x + y) / 2 : ℝ) : ℂ) =
    (((x - (x + y) / 2 : ℝ)) : ℂ) from by push_cast; ring]
  rw [show ((y : ℝ) : ℂ) - (((x + y) / 2 : ℝ) : ℂ) =
    (((y - (x + y) / 2 : ℝ)) : ℂ) from by push_cast; ring]
  rw [Complex.normSq_ofReal, Complex.normSq_ofReal]
  simp only [F.fin.injEq]
  push_cast
  ring

lemma nanvarC_nan :
    nanvarC [none, none] = F.nan := by
  simp only [nanvarC]
  rw [if_pos (show (([none, none] : List (Option ℂ)).filterMap id) = []
    from rfl)]

lemma nanmean_triple : nanmean [F.fin ((1 : ℝ) / 4), F.fin (25 / 4),
    F.fin (49 / 4)] = F.fin (25 / 4) := by
  norm_num [nanmean, nonnans, F.isnan, fsum, F.fadd, F.fdiv]
  exact fun h => absurd h (by simp)

lemma nanmedian_triple : nanmedian [F.fin ((1 : ℝ) / 4), F.fin (25 / 4),
    F.fin (49 / 4)] = F.fin (25 / 4) := by
  norm_num [nanmedian, nonnans, F.isnan, fsort, finsert, F.fleB, F.fadd,
    F.fdiv]

lemma nanvar_triple : nanvar [F.fin ((1 : ℝ) / 4), F.fin (25 / 4),
    F.fin (49 / 4)] = F.fin 24 := by
  simp only [nanvar]
  rw [nanmean_triple]
  norm_num [nonnans, F.isnan, fsum, F.fadd, F.fneg, F.fsub, F.fmul, F.fdiv]
  exact fun h => absurd h (by simp)

lemma nanstd_triple : nanstd [F.fin ((1 : ℝ) / 4), F.fin (25 / 4),
    F.fin (49 / 4)] = F.fin (Real.sqrt 24) := by
  rw [nanstd, nanvar_triple]
  norm_num [sqrtF]

lemma pearson_triple : F.fdiv (F.fmul (F.fin 3)
    (F.fsub (nanmean [F.fin ((1 : ℝ) / 4), F.fin (25 / 4), F.fin (49 / 4)])
      (nanmedian [F.fin ((1 : ℝ) / 4), F.fin (25 / 4), F.fin (49 / 4)])))
    (nanstd [F.fin ((1 : ℝ) / 4), F.fin (25 / 4), F.fin (49 / 4)]) =
    F.fin 0 := by
  rw [nanmean_triple, nanmedian_triple, nanstd_triple]
  have h24 : Real.sqrt 24 ≠ 0 := Real.sqrt_ne_zero'.mpr (by norm_num)
  show F.fdiv (F.fin (3 * (25 / 4 + -(25 / 4)))) (F.fin (Real.sqrt 24)) =
    F.fin 0
  simp only [F.fdiv]
  rw [if_neg h24]
  simp only [F.fin.injEq]
  norm_num

lemma pearson_nan3 : F.fdiv (F.fmul (F.fin 3)
    (F.fsub (nanmean ([F.nan, F.nan, F.nan] : List (F ℝ)))
      (nanmedian ([F.nan, F.nan, F.nan] : List (F ℝ)))))
    (nanstd ([F.nan, F.nan, F.nan] : List (F ℝ))) = F.nan := by
  norm_num [nanmean, nanmedian, nanstd, nanvar, sqrtF, nonnans, F.isnan,
    fsort, F.fsub, F.fadd, F.fneg, F.fmul, F.fdiv]

lemma pearson_single_nan (q : ℝ) :
    F.fdiv (F.fmul (F.fin 3)
      (F.fsub (nanmean [F.fin q]) (nanmedian [F.fin q])))
      (nanstd [F.fin q]) = F.nan := by
  have h1 : ([F.fin q] : List (F ℝ)) = List.replicate 1 (F.fin q) := rfl
  rw [h1, nanmean_replicate 1 q (by omega), nanmedian_replicate 1 q (by omega),
    nanstd_replicate 1 q (by omega)]
  show F.fdiv (F.fin (3 * (q + -q))) (F.fin 0) = F.nan
  rw [show q + -q = (0 : ℝ) from by ring]
  norm_num [F.fdiv]

lemma pearson_single_nan' : F.fdiv (F.fmul (F.fin 3)
    (F.fsub (nanmean ([F.nan] : List (F ℝ)))
      (nanmedian ([F.nan] : List (F ℝ)))))
    (nanstd ([F.nan] : List (F ℝ))) = F.nan := by
  norm_num [nanmean, nanmedian, nanstd, nanvar, sqrtF, nonnans, F.isnan,
    F.fsub, F.fadd, F.fneg, F.fmul, F.fdiv]

end SkewCex

/-- Claim C5 counterexample: a one-timeblock store with three short
baselines whose per-pair variances are 1/4, 25/4 and 49/4. The source
computes the Pearson coefficient across PAIRS within the timeblock
(mean 25/4 = median, std = √24 ≠ 0, coefficient 0) and reports 0, while
the claim's reading — average across pairs first, then Pearson across
TIMEBLOCKS — has a single-element timeblock series with std 0 and
yields NaN: the two disagree. -/
theorem skewness_axes_cex :
    runMetricsSkewness
      [[[[some ((0 : ℝ) : ℂ)], [some ((1 : ℝ) : ℂ)]],
        [[some ((1 : ℝ) : ℂ)], [some ((1 : ℝ) : ℂ)]],
        [[some ((0 : ℝ) : ℂ)], [some ((5 : ℝ) : ℂ)]],
        [[some ((1 : ℝ) : ℂ)], [some ((1 : ℝ) : ℂ)]],
        [[some ((0 : ℝ) : ℂ)], [some ((7 : ℝ) : ℂ)]],
        [[some ((1 : ℝ) : ℂ)], [some ((1 : ℝ) : ℂ)]]]]
      [(0, 1), (2, 3), (4, 5)] = F.fin 0 ∧
    skewnessClaimC5
      [[[[some ((0 : ℝ) : ℂ)], [some ((1 : ℝ) : ℂ)]],
        [[some ((1 : ℝ) : ℂ)], [some ((1 : ℝ) : ℂ)]],
        [[some ((0 : ℝ) : ℂ)], [some ((5 : ℝ) : ℂ)]],
        [[some ((1 : ℝ) : ℂ)], [some ((1 : ℝ) : ℂ)]],
        [[some ((0 : ℝ) : ℂ)], [some ((7 : ℝ) : ℂ)]],
        [[some ((1 : ℝ) : ℂ)], [some ((1 : ℝ) : ℂ)]]]]
      [(0, 1), (2, 3), (4, 5)] = F.nan ∧
    (F.fin 0 : F ℝ) ≠ F.nan := by
  set G : List (TB ℂ) :=
    [[[[some ((0 : ℝ) : ℂ)], [some ((1 : ℝ) : ℂ)]],
      [[some ((1 : ℝ) : ℂ)], [some ((1 : ℝ) : ℂ)]],
      [[some ((0 : ℝ) : ℂ)], [some ((5 : ℝ) : ℂ)]],
      [[some ((1 : ℝ) : ℂ)], [some ((1 : ℝ) : ℂ)]],
      [[some ((0 : ℝ) : ℂ)], [some ((7 : ℝ) : ℂ)]],
      [[some ((1 : ℝ) : ℂ)], [some ((1 : ℝ) : ℂ)]]]] with hG
  have hp1 : gainsForAntpair G (0, 1) =
      [[[some ((0 : ℝ) : ℂ)], [some ((1 : ℝ) : ℂ)]]] := by
    rw [hG]
    show [[[some (((0 : ℝ) : ℂ) * star ((1 : ℝ) : ℂ))],
      [some (((1 : ℝ) : ℂ) * star ((1 : ℝ) : ℂ))]]] = _
    norm_num [Complex.star_def, Complex.conj_ofReal, ← Complex.ofReal_mul]
  have hp2 : gainsForAntpair G (2, 3) =
      [[[some ((0 : ℝ) : ℂ)], [some ((5 : ℝ) : ℂ)]]] := by
    rw [hG]
    show [[[some (((0 : ℝ) : ℂ) * star ((1 : ℝ) : ℂ))],
      [some (((5 : ℝ) : ℂ) * star ((1 : ℝ) : ℂ))]]] = _
    norm_num [Complex.star_def, Complex.conj_ofReal, ← Complex.ofReal_mul]
  have hp3 : gainsForAntpair G (4, 5) =
      [[[some ((0 : ℝ) : ℂ)], [some ((7 : ℝ) : ℂ)]]] := by
    rw [hG]
    show [[[some (((0 : ℝ) : ℂ) * star ((1 : ℝ) : ℂ))],
      [some (((7 : ℝ) : ℂ) * star ((1 : ℝ) : ℂ))]]] = _
    norm_num [Complex.star_def, Complex.conj_ofReal, ← Complex.ofReal_mul]
  have hv1 : varianceForAntpair G (0, 1) =
      [[F.fin ((1 : ℝ) / 4), F.nan, F.nan, F.nan]] := by
    simp only [varianceForAntpair]
    rw [hp1, show List.range 4 = [0, 1, 2, 3] from rfl]
    show [[nanvarC [some ((0 : ℝ) : ℂ), some ((1 : ℝ) : ℂ)],
      nanvarC [none, none], nanvarC [none, none], nanvarC [none, none]]] = _
    rw [nanvarC_pair 0 1]
    simp only [nanvarC_nan]
    norm_num
  have hv2 : varianceForAntpair G (2, 3) =
      [[F.fin (25 / 4 : ℝ), F.nan, F.nan, F.nan]] := by
    simp only [varianceForAntpair]
    rw [hp2, show List.range 4 = [0, 1, 2, 3] from rfl]
    show [[nanvarC [some ((0 : ℝ) : ℂ), some ((5 : ℝ) : ℂ)],
      nanvarC [none, none], nanvarC [none, none], nanvarC [none, none]]] = _
    rw [nanvarC_pair 0 5]
    simp only [nanvarC_nan]
    norm_num
  have hv3 : varianceForAntpair G (4, 5) =
      [[F.fin (49 / 4 : ℝ), F.nan, F.nan, F.nan]] := by
    simp only [varianceForAntpair]
    rw [hp3, show List.range 4 = [0, 1, 2, 3] from rfl]
    show [[nanvarC [some ((0 : ℝ) : ℂ), some ((7 : ℝ) : ℂ)],
      nanvarC [none, none], nanvarC [none, none], nanvarC [none, none]]] = _
    rw [nanvarC_pair 0 7]
    simp only [nanvarC_nan]
    norm_num
  have hvars : variancesForBaselines G [(0, 1), (2, 3), (4, 5)] =
      [[[F.fin ((1 : ℝ) / 4), F.nan, F.nan, F.nan],
        [F.fin (25 / 4 : ℝ), F.nan, F.nan, F.nan],
        [F.fin (49 / 4 : ℝ), F.nan, F.nan, F.nan]]] := by
    simp only [variancesForBaselines, List.map_cons, List.map_nil]
    rw [hv1, hv2, hv3, show G.length = 1 from by rw [hG]; rfl]
    rfl
  have hskew : skewnessAcrossUvcut G [(0, 1), (2, 3), (4, 5)] =
      [F.fin 0, F.nan, F.nan, F.nan] := by
    simp only [skewnessAcrossUvcut]
    rw [hvars]
    simp only [skewnessFromVariances]
    rw [show List.range 4 = [0, 1, 2, 3] from rfl]
    simp only [List.map_cons, List.map_nil, List.getD_cons_zero,
      List.getD_cons_succ]
    rw [pearson_triple]
    simp only [pearson_nan3]
    norm_num [nanmax, nonnans, F.isnan]
  have hclaim : skewnessClaimC5 G [(0, 1), (2, 3), (4, 5)] = F.nan := by
    simp only [skewnessClaimC5]
    rw [hvars]
    simp only [List.map_cons, List.map_nil, List.getD_cons_zero,
      List.getD_cons_succ]
    rw [nanmean_triple]
    rw [show nanmean ([F.nan, F.nan, F.nan] : List (F ℝ)) = F.nan from by
      norm_num [nanmean, nonnans, F.isnan]]
    rw [pearson_single_nan (25 / 4), pearson_single_nan']
    norm_num [nanmax, nonnans, F.isnan]
  refine ⟨?_, hclaim, by simp⟩
  simp only [runMetricsSkewness]
  rw [hskew]
  norm_num [List.getD_cons_zero, List.getD_cons_succ, nanmax, nonnans,
    F.isnan]
